import Mathlib

/-!
Verification of the `PDBEnsemble` class of `prody/ensemble/pdbensemble.py`
(heterogeneous conformational ensembles with per-atom weight masks).

Coordinates are modelled exactly over `ℚ` (one rational per numpy float64
component); a numpy array of shape `(n, 3)` becomes a `List Vec3` with
`Vec3 := Fin 3 → ℚ`, and the per-frame weight column of shape `(n_atoms, 1)`
becomes a `List ℚ`.  A numpy float NaN arising from `0/0` is modelled by
`Option`: `none` stands for NaN.  Fallible operations return the
partially-mutated state together with `Option String` (the raised message),
mirroring Python exception semantics where partial mutations survive a raise.
-/

namespace ProDyEnsemble

abbrev Vec3 := Fin 3 → ℚ

/-- The all-zero 3-vector, used as an out-of-range default. -/
def vzero : Vec3 := fun _ => 0

/-- One conformation: per-atom coordinates (numpy shape `(n_atoms, 3)`). -/
abbrev Frame := List Vec3

/-- One per-frame weight row (numpy shape `(n_atoms, 1)`, flattened). -/
abbrev WRow := List ℚ

abbrev Mat3 := Matrix (Fin 3) (Fin 3) ℚ
abbrev Mat4 := Matrix (Fin 4) (Fin 4) ℚ

/-- State of a `PDBEnsemble` object.  `coords` is the reference coordinate
set (`self._coords`), `confs` the stacked conformations (`self._confs`,
`None` before any data is added), `weights` the per-frame weight rows
(`self._weights`), `labels` the conformation labels (`self._labels`),
`indices` the active atom-subset selection (`self._indices`), `trans` the
transform history (`self._trans`), `msa` the per-frame sequences
(`self._msa`, reduced to its list of sequence strings), `nAtoms` the fixed
atom count (`self._n_atoms`, `0` meaning not yet fixed) and `nCsets` the
frame counter (`self._n_csets`). -/
structure PDBEnsemble where
  nAtoms : Nat
  nCsets : Nat
  coords : Option Frame
  confs : Option (List Frame)
  weights : Option (List WRow)
  labels : List String
  indices : Option (List Nat)
  trans : Option (List Mat4)
  msa : Option (List String)
deriving DecidableEq

/-- A freshly constructed ensemble (`PDBEnsemble('Unknown')`). -/
def emptyEns : PDBEnsemble :=
  { nAtoms := 0, nCsets := 0, coords := none, confs := none, weights := none,
    labels := [], indices := none, trans := none, msa := none }

/-- Fancy-index a frame by a selection index list (`arr[indices]` on the atom
axis); `none` means no selection, i.e. the identity. -/
def selF (o : Option (List Nat)) (xs : Frame) : Frame :=
  match o with
  | none => xs
  | some is => is.map (fun i => xs.getD i vzero)

/-- Fancy-index a weight row by a selection index list. -/
def selR (o : Option (List Nat)) (xs : WRow) : WRow :=
  match o with
  | none => xs
  | some is => is.map (fun i => xs.getD i 0)

/-- `numSelected()` of the base class: the selection size, or the atom count
when no selection is active. -/
def numSelected (e : PDBEnsemble) : Nat :=
  match e.indices with
  | none => e.nAtoms
  | some is => is.length

/-- Core of `getCoordsets` (src lines 368-379): for one frame, replace the
coordinates of every zero-weight atom with the reference coordinates
(`confs[i, which] = coords[which]` where `which = w == 0`). -/
def substZeroWeight (ref conf : Frame) (w : WRow) : Frame :=
  (List.range conf.length).map
    (fun a => if w.getD a 0 = 0 then ref.getD a vzero else conf.getD a vzero)

/-- `PDBEnsemble.getCoordsets(indices=None, selected=...)` (src lines
351-380), for the all-frames retrieval: returns `None` when `_confs` is
`None`; otherwise a copy of each frame where each zero-weight atom's
coordinates are replaced by the reference coordinates, restricted to the
selected atoms when a selection is active and `selected` holds. -/
def getCoordsets (e : PDBEnsemble) (selected : Bool) : Option (List Frame) :=
  match e.confs with
  | none => none
  | some cs =>
    let ws := e.weights.getD []
    let ref := e.coords.getD []
    if e.indices = none ∨ selected = false then
      some ((cs.zip ws).map (fun p => substZeroWeight ref p.1 p.2))
    else
      some ((cs.zip ws).map
        (fun p => substZeroWeight (selF e.indices ref) (selF e.indices p.1)
                    (selR e.indices p.2)))

/-- `getD` at an in-range index is `getElem`. -/
theorem getD_of_lt {α : Type} (l : List α) (i : Nat) (d : α) (h : i < l.length) :
    l.getD i d = l[i] := by
  rw [List.getD_eq_getElem?_getD, List.getElem?_eq_getElem h]; rfl

/-- Indexing a mapped zip of two equal-length lists. -/
theorem getD_map_zip {α β γ : Type} (g : α × β → γ) (xs : List α) (ys : List β)
    (i : Nat) (hx : i < xs.length) (hy : i < ys.length) (dx : α) (dy : β) (dz : γ) :
    ((xs.zip ys).map g).getD i dz = g (xs.getD i dx, ys.getD i dy) := by
  have hz : i < (xs.zip ys).length := by
    simp only [List.length_zip]; omega
  rw [getD_of_lt _ _ _ (by simpa using hz), getD_of_lt _ _ _ hx, getD_of_lt _ _ _ hy,
    List.getElem_map, List.getElem_zip]

/-- Entrywise description of `substZeroWeight`. -/
theorem substZeroWeight_getD (ref conf : Frame) (w : WRow) (a : Nat)
    (h : a < conf.length) :
    (substZeroWeight ref conf w).getD a vzero =
      if w.getD a 0 = 0 then ref.getD a vzero else conf.getD a vzero := by
  unfold substZeroWeight
  rw [getD_of_lt _ _ _ (by simpa using h), List.getElem_map, List.getElem_range]

theorem substZeroWeight_length (ref conf : Frame) (w : WRow) :
    (substZeroWeight ref conf w).length = conf.length := by
  simp [substZeroWeight]

/-- The selection actually applied by `getCoordsets`: the active selection
when one exists and `selected` holds, otherwise no restriction. -/
def effSel (e : PDBEnsemble) (sel : Bool) : Option (List Nat) :=
  if e.indices = none ∨ sel = false then none else e.indices

/-- C5: for every ensemble, every frame index, and every atom whose weight in
that frame is 0, `getCoordsets` returns the reference coordinate at that
atom's position in place of the raw stored coordinate, both when a selection
is active (over the selected atoms) and when it is not (over all atoms);
atoms with nonzero weight keep their stored coordinates. -/
theorem getCoordsets_zero_weight_ref (e : PDBEnsemble) (cs : List Frame)
    (ws : List WRow) (sel : Bool) (hc : e.confs = some cs)
    (hw : e.weights = some ws) (hlen : ws.length = cs.length) :
    ∃ out, getCoordsets e sel = some out ∧ out.length = cs.length ∧
      ∀ f, f < cs.length → ∀ a, a < (selF (effSel e sel) (cs.getD f [])).length →
        (out.getD f []).getD a vzero =
          (if (selR (effSel e sel) (ws.getD f [])).getD a 0 = 0
           then (selF (effSel e sel) (e.coords.getD [])).getD a vzero
           else (selF (effSel e sel) (cs.getD f [])).getD a vzero) := by
  by_cases hcase : e.indices = none ∨ sel = false
  · have hk : effSel e sel = none := by simp [effSel, hcase]
    refine ⟨(cs.zip ws).map
        (fun p => substZeroWeight (e.coords.getD []) p.1 p.2), ?_,
        by simp [hlen], ?_⟩
    · simp [getCoordsets, hc, hw, hcase]
    · intro f hf a ha
      rw [hk] at ha ⊢
      simp only [selF, selR] at ha ⊢
      rw [getD_map_zip _ cs ws f hf (by omega) [] [] []]
      exact substZeroWeight_getD _ _ _ _ ha
  · have hk : effSel e sel = e.indices := by simp [effSel, hcase]
    refine ⟨(cs.zip ws).map
        (fun p => substZeroWeight (selF e.indices (e.coords.getD []))
          (selF e.indices p.1) (selR e.indices p.2)), ?_,
        by simp [hlen], ?_⟩
    · simp [getCoordsets, hc, hw, hcase]
    · intro f hf a ha
      rw [hk] at ha ⊢
      rw [getD_map_zip _ cs ws f hf (by omega) [] [] []]
      exact substZeroWeight_getD _ _ _ _ ha

/-- A concrete two-atom, one-frame ensemble in which atom 0 has weight 0. -/
def c5ens : PDBEnsemble :=
  { nAtoms := 2, nCsets := 1,
    coords := some [vzero, fun _ => 1],
    confs := some [[fun _ => 5, fun _ => 7]],
    weights := some [[0, 2]],
    labels := ["a"], indices := none, trans := none, msa := none }

theorem getCoordsets_zero_weight_ref_witness :
    ∃ out, getCoordsets c5ens true = some out ∧
      out.length = ([[fun _ => 5, fun _ => 7]] : List Frame).length ∧
      ∀ f, f < ([[fun _ => 5, fun _ => 7]] : List Frame).length →
        ∀ a, a < (selF (effSel c5ens true)
            (([[fun _ => 5, fun _ => 7]] : List Frame).getD f [])).length →
        (out.getD f []).getD a vzero =
          (if (selR (effSel c5ens true)
                (([[0, 2]] : List WRow).getD f [])).getD a 0 = 0
           then (selF (effSel c5ens true) (c5ens.coords.getD [])).getD a vzero
           else (selF (effSel c5ens true)
                (([[fun _ => 5, fun _ => 7]] : List Frame).getD f [])).getD a vzero) :=
  getCoordsets_zero_weight_ref c5ens [[fun _ => 5, fun _ => 7]] [[0, 2]] true rfl rfl rfl

/-- The `label` argument of `addCoordset`: `None`, a single identifier, or a
list of identifiers. -/
inductive LabelArg where
  | noLabel : LabelArg
  | str : String → LabelArg
  | strs : List String → LabelArg
deriving DecidableEq

/-- Python `label = label or 'Unknown'` (src line 221): `None`, the empty
string and the empty list are falsy. -/
def labelOrUnknown : LabelArg → LabelArg
  | .noLabel => .str "Unknown"
  | .str s => if s = "" then .str "Unknown" else .str s
  | .strs l => if l = [] then .str "Unknown" else .strs l

/-- The `sequence` keyword argument of `addCoordset`: `None`, a single
sequence string, or one string per frame (an MSA). -/
inductive SeqArg where
  | noSeq : SeqArg
  | one : String → SeqArg
  | many : List String → SeqArg
deriving DecidableEq

/-- Modelled from the spec: `checkCoords(coords, csets=True, natoms=n)`
(`prody.utilities`, not under src) accepts a coordinate stack whose atom
count matches `natoms`; when the ensemble has no fixed atom count yet
(`natoms = 0`, Python falsy) the atom-count check is skipped and the count
is fixed from this call's frame shape. -/
def checkCoordsOk (nNodes natoms : Nat) : Bool :=
  natoms == 0 || nNodes == natoms

/-- Modelled from the spec: `checkWeights(weights, natoms, ncsets)`
(`prody.utilities`, not under src) requires one weight row per coordinate
set, one weight per atom, and all values nonnegative. -/
def checkWeightsOk (w : List WRow) (natoms ncsets : Nat) : Bool :=
  w.length == ncsets &&
    w.all (fun r => r.length == natoms && r.all (fun x => decide (0 ≤ x)))

/-- Numpy scatter assignment `full[idxs] = vals` on the atom axis of a copy
of the reference frame (src lines 248-249). -/
def scatterFrame (ref : Frame) (idxs : List Nat) (vals : Frame) : Frame :=
  (idxs.zip vals).foldl (fun acc p => acc.set p.1 p.2) ref

/-- An all-`'X'` placeholder sequence of the given length (src lines 275 and
309-310). -/
def xSeq (n : Nat) : String := String.mk (List.replicate n 'X')

/-- `PDBEnsemble.addCoordset(coords, weights, label, degeneracy, sequence)`
(src lines 164-332), for a raw coordinate-stack input (a single frame is the
one-element stack, matching the `ndim == 2` reshape of src line 235).
Returns the resulting state together with the raised error message, if any;
on an error the returned state carries every mutation committed before the
raise, exactly as the Python object would. -/
def addCoordset (st : PDBEnsemble) (coordsIn : Option (List Frame))
    (weightsIn : Option (List WRow)) (label : LabelArg) (degeneracy : Bool)
    (sequence : SeqArg) : PDBEnsemble × Option String :=
  -- src 178-180
  let n_atoms := st.nAtoms
  let n_select := numSelected st
  let n_confs := st.nCsets
  match coordsIn with
  | none => (st, some "coordinates are not set")          -- src 210-211
  | some stack =>
    let label0 := labelOrUnknown label                    -- src 221
    let n_csets := stack.length                           -- src 238
    let n_nodes := (stack.headD []).length
    -- src 224-231: checked against the full atom count, then the selected one
    if ¬ (checkCoordsOk n_nodes n_atoms || checkCoordsOk n_nodes n_select) then
      (st, some "coordinates are not in valid shape")
    else
    let coords1 := if degeneracy then stack.take 1 else stack   -- src 239-240
    let n_repeats := if degeneracy then 1 else n_csets          -- src 242
    -- src 244-245: the atom count is fixed BEFORE the remaining validation,
    -- and the local n_atoms keeps its old value for the rest of the call
    let st1 := if n_atoms = 0 then { st with nAtoms := n_nodes } else st
    -- src 247-250: scatter selection-sized input into a buffer seeded from
    -- the reference coordinates; numpy keeps n_csets buffer rows here even
    -- when degeneracy already truncated coords1 (broadcasting the one frame)
    let coords2 :=
      if n_nodes = n_select ∧ st.indices.isSome then
        (List.range n_csets).map (fun j =>
          scatterFrame (st.coords.getD []) (st.indices.getD [])
            (if degeneracy then coords1.getD 0 [] else stack.getD j []))
      else coords1
    -- src 252-259: default weights use the stale local n_atoms
    match (match weightsIn with
           | none => Except.ok (List.replicate n_csets
                       (List.replicate n_atoms (1 : ℚ)))
           | some w => if checkWeightsOk w n_atoms n_csets then Except.ok w
                       else Except.error "weights are not in valid shape") with
    | Except.error msg => (st1, some msg)
    | Except.ok weights0 =>
      let weights1 := if degeneracy then weights0.take 1 else weights0
      -- src 262-282
      let seqs : Option (List String) :=
        match sequence with
        | .noSeq => if st.msa.isSome
                    then some (List.replicate n_repeats (xSeq n_atoms))
                    else none
        | .one s => some (List.replicate n_repeats s)
        | .many l => some l
      -- src 284-287
      if (match seqs with
          | some l => decide (l ≠ [] ∧ l.length ≠ n_repeats)
          | none => false) then
        (st1, some "the number of sequences should be either one or that of coordsets")
      else
      -- src 291-300
      match (if 1 < n_csets ∧ degeneracy = false then
               match label0 with
               | .str s => Except.ok ((List.range n_csets).map
                             (fun i => s ++ "_m" ++ toString (i + 1)))
               | .strs l => if l.length = n_csets then Except.ok l
                            else Except.error
                              "length of label and number of coordinate sets must be the same"
               | .noLabel => Except.ok []
             else
               match label0 with
               | .str s => Except.ok [s]
               | .strs l => Except.ok l
               | .noLabel => Except.ok []) with
      | Except.error msg => (st1, some msg)
      | Except.ok labels =>
        let st2 := { st1 with labels := st1.labels ++ labels }   -- src 302
        -- src 305-318: only the msa field changes here
        let msa' : Option (List String) :=
          match seqs with
          | some seqsL =>
            if seqsL ≠ [] then
              match st2.msa with
              | none => if 0 < n_confs
                        then some (List.replicate n_confs (xSeq n_atoms)
                                    ++ seqsL)
                        else some seqsL
              | some old => some (old ++ seqsL)
            else st2.msa
          | none => st2.msa
        let st3 := { st2 with msa := msa' }
        -- src 320-332
        match st3.confs, st3.weights with
        | none, none =>
            ({ st3 with confs := some coords2, weights := some weights1,
                        nCsets := n_repeats }, none)
        | some c, some w =>
            ({ st3 with confs := some (c ++ coords2),
                        weights := some (w ++ weights1),
                        nCsets := st3.nCsets + n_repeats }, none)
        | _, _ => (st3, some "RuntimeError")

theorem scatterFrame_nil_left (ref : Frame) (vals : Frame) :
    scatterFrame ref [] vals = ref := rfl

theorem scatterFrame_cons (ref : Frame) (i : Nat) (is : List Nat) (v : Vec3)
    (vs : Frame) : scatterFrame ref (i :: is) (v :: vs) =
      scatterFrame (ref.set i v) is vs := rfl

theorem scatterFrame_length (ref : Frame) (idxs : List Nat) (vals : Frame) :
    (scatterFrame ref idxs vals).length = ref.length := by
  induction idxs generalizing ref vals with
  | nil => rfl
  | cons i is ih =>
    cases vals with
    | nil => rfl
    | cons v vs => rw [scatterFrame_cons, ih]; simp

/-- Positions outside the scatter index list keep the seed value. -/
theorem scatterFrame_not_mem (ref : Frame) (idxs : List Nat) (vals : Frame)
    (a : Nat) (h : a ∉ idxs) :
    (scatterFrame ref idxs vals).getD a vzero = ref.getD a vzero := by
  induction idxs generalizing ref vals with
  | nil => rfl
  | cons i is ih =>
    cases vals with
    | nil => rfl
    | cons v vs =>
      rw [scatterFrame_cons, ih _ _ (fun hm => h (List.mem_cons_of_mem i hm))]
      have hne : i ≠ a := fun he => h (he ▸ List.mem_cons_self i is)
      simp [List.getD_eq_getElem?_getD, List.getElem?_set_ne hne]

/-- Scattered positions receive the supplied values (index list without
duplicates, all indices in range). -/
theorem scatterFrame_mem (ref : Frame) (idxs : List Nat) (vals : Frame)
    (hnd : idxs.Nodup) (hrange : ∀ i ∈ idxs, i < ref.length) (j : Nat)
    (hj : j < idxs.length) (hv : vals.length = idxs.length) :
    (scatterFrame ref idxs vals).getD (idxs.getD j 0) vzero =
      vals.getD j vzero := by
  induction idxs generalizing ref vals j with
  | nil => simp at hj
  | cons i is ih =>
    cases vals with
    | nil => simp at hv
    | cons v vs =>
      rw [scatterFrame_cons]
      cases j with
      | zero =>
        have hni : i ∉ is := (List.nodup_cons.mp hnd).1
        rw [show (i :: is).getD 0 0 = i from rfl,
          scatterFrame_not_mem _ _ _ _ hni]
        have hi : i < ref.length := hrange i (List.mem_cons_self i is)
        simp [List.getD_eq_getElem?_getD, List.getElem?_set_eq_of_lt v hi]
      | succ j =>
        have := ih (ref.set i v) vs ((List.nodup_cons.mp hnd).2)
          (fun k hk => by
            rw [List.length_set]
            exact hrange k (List.mem_cons_of_mem i hk))
          j (by simpa using hj) (by simpa using hv)
        simpa using this

/-- C3: for every ensemble with an active atom-subset selection, appending a
coordinate frame whose atom count equals the selection size stores a
full-atom-count frame seeded from the reference coordinates with the
supplied coordinates placed at the subset indices: the stored frame equals
the supplied values at each selected index and the reference coordinates at
every other index. -/
theorem addCoordset_selection_scatter (st : PDBEnsemble) (idxs : List Nat)
    (ref : Frame) (cs : Frame) (label : LabelArg) (N : Nat)
    (hidx : st.indices = some idxs) (hnd : idxs.Nodup)
    (hrange : ∀ i ∈ idxs, i < N) (hN : st.nAtoms = N) (hN0 : N ≠ 0)
    (hcoords : st.coords = some ref) (href : ref.length = N)
    (hcslen : cs.length = idxs.length)
    (hpair : (st.confs = none ∧ st.weights = none) ∨
      (∃ c w, st.confs = some c ∧ st.weights = some w)) :
    ∃ newF, (addCoordset st (some [cs]) none label false SeqArg.noSeq).2 = none ∧
      (addCoordset st (some [cs]) none label false SeqArg.noSeq).1.confs =
        some (st.confs.getD [] ++ [newF]) ∧
      newF.length = N ∧
      (∀ j, j < idxs.length →
        newF.getD (idxs.getD j 0) vzero = cs.getD j vzero) ∧
      (∀ a, a < N → a ∉ idxs → newF.getD a vzero = ref.getD a vzero) := by
  have hrun : (addCoordset st (some [cs]) none label false SeqArg.noSeq).2 = none ∧
      (addCoordset st (some [cs]) none label false SeqArg.noSeq).1.confs =
        some (st.confs.getD [] ++ [scatterFrame ref idxs cs]) := by
    rcases hpair with ⟨h1, h2⟩ | ⟨c, w, h1, h2⟩ <;>
      rcases hl : labelOrUnknown label with _ | s | ls <;>
      rcases hm : st.msa with _ | m <;>
      simp [addCoordset, numSelected, checkCoordsOk, hl, hm, h1, h2, hidx,
        hcoords, hN, hN0, hcslen, List.range_succ]
  refine ⟨scatterFrame ref idxs cs, hrun.1, hrun.2, ?_, ?_, ?_⟩
  · rw [scatterFrame_length, href]
  · intro j hj
    exact scatterFrame_mem ref idxs cs hnd
      (fun i hi => by rw [href]; exact hrange i hi) j hj hcslen
  · intro a _ ha
    exact scatterFrame_not_mem ref idxs cs a ha

/-- Reference coordinates for the 10-atom scatter scenario. -/
def c3ref : Frame := (List.range 10).map (fun i => fun _ => (i : ℚ))

/-- A 10-atom ensemble with the active selection `[2, 4, 6]`. -/
def c3ens : PDBEnsemble :=
  { nAtoms := 10, nCsets := 0, coords := some c3ref, confs := none,
    weights := none, labels := [], indices := some [2, 4, 6], trans := none,
    msa := none }

/-- The selection-sized (3-atom) frame being appended. -/
def c3frame : Frame := [fun _ => 100, fun _ => 101, fun _ => 102]

theorem addCoordset_selection_scatter_witness :
    ∃ newF,
      (addCoordset c3ens (some [c3frame]) none LabelArg.noLabel false
        SeqArg.noSeq).2 = none ∧
      (addCoordset c3ens (some [c3frame]) none LabelArg.noLabel false
        SeqArg.noSeq).1.confs = some (c3ens.confs.getD [] ++ [newF]) ∧
      newF.length = 10 ∧
      (∀ j, j < ([2, 4, 6] : List Nat).length →
        newF.getD (([2, 4, 6] : List Nat).getD j 0) vzero =
          c3frame.getD j vzero) ∧
      (∀ a, a < 10 → a ∉ ([2, 4, 6] : List Nat) →
        newF.getD a vzero = c3ref.getD a vzero) :=
  addCoordset_selection_scatter c3ens [2, 4, 6] c3ref c3frame LabelArg.noLabel
    10 rfl (by decide) (by decide) rfl (by decide) rfl rfl rfl
    (Or.inl ⟨rfl, rfl⟩)

/-- A one-atom, one-frame ensemble used for the degeneracy scenario. -/
def c4base : PDBEnsemble :=
  { nAtoms := 1, nCsets := 1, coords := some [vzero], confs := some [[vzero]],
    weights := some [[1]], labels := ["l0"], indices := none, trans := none,
    msa := none }

/-- A stack of five distinct one-atom frames. -/
def c4stack : List Frame :=
  [[fun _ => 1], [fun _ => 2], [fun _ => 3], [fun _ => 4], [fun _ => 5]]

/-- C4 (code bug): appending a 5-frame stack with `degeneracy=True` does
append exactly one coordinate row and one weight row (the row equal to the
stack's first element) and increments the frame counter by exactly 1, but
when the label argument is a list of five identifiers all five labels are
appended (src line 300 extends the whole list), leaving six labels for two
frames — contradicting the claim that exactly one label is appended
regardless of the input stack depth. -/
theorem addCoordset_degeneracy_label_bug :
    (addCoordset c4base (some c4stack) none
      (LabelArg.strs ["a", "b", "c", "d", "e"]) true SeqArg.noSeq).2 = none ∧
    (addCoordset c4base (some c4stack) none
      (LabelArg.strs ["a", "b", "c", "d", "e"]) true SeqArg.noSeq).1.nCsets = 2 ∧
    ((addCoordset c4base (some c4stack) none
      (LabelArg.strs ["a", "b", "c", "d", "e"]) true
        SeqArg.noSeq).1.confs.getD []).length = 2 ∧
    ((addCoordset c4base (some c4stack) none
      (LabelArg.strs ["a", "b", "c", "d", "e"]) true
        SeqArg.noSeq).1.confs.getD []).getD 1 [] = [fun _ => 1] ∧
    ((addCoordset c4base (some c4stack) none
      (LabelArg.strs ["a", "b", "c", "d", "e"]) true
        SeqArg.noSeq).1.weights.getD []).length = 2 ∧
    (addCoordset c4base (some c4stack) none
      (LabelArg.strs ["a", "b", "c", "d", "e"]) true SeqArg.noSeq).1.labels =
      ["l0", "a", "b", "c", "d", "e"] := by
  decide

/-- C9 (code bug): on the first-ever data added to an ensemble whose atom
count is not yet fixed, omitting `weights` stores a weight row sized by the
stale local `n_atoms = 0` (src line 254) instead of one weight per atom of
the newly fixed atom count: the call succeeds, fixes the atom count to 2,
but stores an empty weight row. -/
theorem addCoordset_default_weights_bug :
    (addCoordset emptyEns (some [[fun _ => 1, fun _ => 2]]) none
      LabelArg.noLabel false SeqArg.noSeq).2 = none ∧
    (addCoordset emptyEns (some [[fun _ => 1, fun _ => 2]]) none
      LabelArg.noLabel false SeqArg.noSeq).1.nAtoms = 2 ∧
    (addCoordset emptyEns (some [[fun _ => 1, fun _ => 2]]) none
      LabelArg.noLabel false SeqArg.noSeq).1.weights = some [[]] := by
  decide

/-- C6 (counterexample): on a fresh ensemble with no fixed atom count,
appending a 2-frame stack with a 3-element label list raises the
label-length error, yet the atom count has already been fixed by src line
244-245 — the ensemble is mutated on error. -/
theorem addCoordset_not_atomic_counterexample :
    (addCoordset emptyEns (some [[vzero], [vzero]]) none
      (LabelArg.strs ["a", "b", "c"]) false SeqArg.noSeq).2.isSome = true ∧
    (addCoordset emptyEns (some [[vzero], [vzero]]) none
      (LabelArg.strs ["a", "b", "c"]) false SeqArg.noSeq).1.nAtoms ≠
      emptyEns.nAtoms := by
  decide

/-- C6 (amended): for every ensemble whose atom count is already fixed
(`nAtoms ≠ 0`) and whose conformation and weight arrays are set together,
every failing `addCoordset` call leaves the ensemble completely unchanged —
the validation errors are raised before any mutation is committed. -/
theorem addCoordset_atomic_when_atoms_fixed (st : PDBEnsemble)
    (coordsIn : Option (List Frame)) (weightsIn : Option (List WRow))
    (label : LabelArg) (degeneracy : Bool) (sequence : SeqArg)
    (hN : st.nAtoms ≠ 0) (hpair : st.confs.isSome = st.weights.isSome) :
    ∀ st' msg, addCoordset st coordsIn weightsIn label degeneracy sequence =
      (st', some msg) → st' = st := by
  intro st' msg h
  cases coordsIn with
  | none =>
    simp only [addCoordset] at h
    exact (congrArg Prod.fst h).symm
  | some stack =>
    rcases hc : st.confs with _ | c <;> rcases hw : st.weights with _ | w
    · simp only [addCoordset, if_neg hN, hc, hw] at h
      repeat' split at h
      all_goals first
        | exact (congrArg Prod.fst h).symm
        | exact Option.noConfusion (congrArg Prod.snd h)
    · rw [hc, hw] at hpair
      exact absurd hpair (by simp)
    · rw [hc, hw] at hpair
      exact absurd hpair (by simp)
    · simp only [addCoordset, if_neg hN, hc, hw] at h
      repeat' split at h
      all_goals first
        | exact (congrArg Prod.fst h).symm
        | exact Option.noConfusion (congrArg Prod.snd h)

theorem addCoordset_atomic_when_atoms_fixed_witness :
    c4base.nAtoms ≠ 0 ∧ c4base.confs.isSome = c4base.weights.isSome ∧
    ∀ st' msg, addCoordset c4base (some [[vzero], [vzero]]) none
      (LabelArg.strs ["a", "b", "c"]) false SeqArg.noSeq = (st', some msg) →
      st' = c4base :=
  ⟨by decide, rfl,
    addCoordset_atomic_when_atoms_fixed c4base (some [[vzero], [vzero]]) none
      (LabelArg.strs ["a", "b", "c"]) false SeqArg.noSeq (by decide) rfl⟩

/-- Sum of the three coordinate components (`ssqf.sum(1)` per atom). -/
def sum3 (v : Vec3) : ℚ := v 0 + v 1 + v 2

/-- The boolean inclusion mask `self._weights > 0` (src line 438), cast to
`0/1` as numpy does when multiplying it into float arrays. -/
def maskOf (w : ℚ) : ℚ := if 0 < w then 1 else 0

/-- Per-atom core of `getMSFs` (src lines 443-451): `weightsum` is the
per-atom mask total, `mean` the mask-weighted mean coordinate, and the
result the mask-weighted sum of squared deviations over the three
components divided by `weightsum`.  A zero `weightsum` makes the float code
produce NaN (`0/0`), modelled as `none`. -/
def msfAt (frames : List (Frame × WRow)) (a : Nat) : Option ℚ :=
  let m := fun p : Frame × WRow => maskOf (p.2.getD a 0)
  let wsum := (frames.map m).sum
  if wsum = 0 then none
  else
    let mean : Vec3 := fun d =>
      (frames.map (fun p => m p * (p.1.getD a vzero) d)).sum / wsum
    some (sum3 (fun d =>
      (frames.map (fun p =>
        (m p * ((p.1.getD a vzero) d - mean d)) ^ 2)).sum) / wsum)

/-- `PDBEnsemble.getMSFs()` (src lines 427-451): `None` when `_confs` is
`None`; otherwise one per-selected-atom entry. -/
def getMSFs (e : PDBEnsemble) : Option (List (Option ℚ)) :=
  match e.confs with
  | none => none
  | some cs =>
    let ref := selF e.indices (e.coords.getD [])
    let frames := (cs.zip (e.weights.getD [])).map
      (fun p => (selF e.indices p.1, selR e.indices p.2))
    some ((List.range ref.length).map (fun a => msfAt frames a))

/-- The specification's per-atom MSF: restrict to the frames where the atom
has weight `> 0` (inclusion mask), take the plain mean of those frames'
coordinates, and normalize the summed squared deviations by the number of
included frames (the sum of the inclusion weights) rather than the frame
count; `none` (NaN) when no frame includes the atom. -/
def specMSFAt (frames : List (Frame × WRow)) (a : Nat) : Option ℚ :=
  let included := frames.filter (fun p => decide (0 < p.2.getD a 0))
  if included.length = 0 then none
  else
    let k : ℚ := included.length
    let mean : Vec3 := fun d =>
      (included.map (fun p => (p.1.getD a vzero) d)).sum / k
    some (sum3 (fun d =>
      (included.map (fun p =>
        ((p.1.getD a vzero) d - mean d) ^ 2)).sum) / k)

theorem maskOf_sq (w y : ℚ) : (maskOf w * y) ^ 2 = maskOf w * y ^ 2 := by
  unfold maskOf; split <;> ring

/-- A mask-weighted sum over all frames is the plain sum over the included
frames. -/
theorem maskSum (a : Nat) (g : Frame × WRow → ℚ) (l : List (Frame × WRow)) :
    (l.map (fun p => maskOf (p.2.getD a 0) * g p)).sum
      = ((l.filter (fun p => decide (0 < p.2.getD a 0))).map g).sum := by
  induction l with
  | nil => rfl
  | cons p l ih =>
    simp only [List.map_cons, List.sum_cons, List.filter_cons]
    by_cases hp : 0 < p.2.getD a 0
    · rw [if_pos (decide_eq_true hp)]
      simp only [List.map_cons, List.sum_cons]
      rw [ih]
      unfold maskOf
      rw [if_pos hp, one_mul]
    · rw [if_neg (fun hd => hp (of_decide_eq_true hd)), ih]
      unfold maskOf
      rw [if_neg hp, zero_mul, zero_add]

theorem sum_map_one {α : Type} (l : List α) :
    (l.map (fun _ => (1 : ℚ))).sum = (l.length : ℚ) := by
  induction l with
  | nil => rfl
  | cons x xs ih => simp [ih, add_comm]

/-- The mask total is the number of included frames. -/
theorem maskCount (a : Nat) (l : List (Frame × WRow)) :
    (l.map (fun p => maskOf (p.2.getD a 0))).sum
      = ((l.filter (fun p => decide (0 < p.2.getD a 0))).length : ℚ) := by
  have h := maskSum a (fun _ => (1 : ℚ)) l
  simp only [mul_one] at h
  rw [h, sum_map_one]

/-- The code's per-atom MSF equals the specification's: the weight acts only
as an inclusion mask and the normalizer is the count of included frames. -/
theorem msfAt_eq_spec (frames : List (Frame × WRow)) (a : Nat) :
    msfAt frames a = specMSFAt frames a := by
  simp only [msfAt, specMSFAt, maskCount a frames]
  by_cases hz : (frames.filter (fun p => decide (0 < p.2.getD a 0))).length = 0
  · rw [if_pos (Nat.cast_eq_zero.mpr hz), if_pos hz]
  · rw [if_neg (fun h => hz (Nat.cast_eq_zero.mp h)), if_neg hz]
    have hmean : ∀ d : Fin 3,
        (frames.map (fun p => maskOf (p.2.getD a 0) * (p.1.getD a vzero) d)).sum
          = ((frames.filter (fun p => decide (0 < p.2.getD a 0))).map
              (fun p => (p.1.getD a vzero) d)).sum :=
      fun d => maskSum a (fun p => (p.1.getD a vzero) d) frames
    have hcomp : ∀ d : Fin 3,
        (frames.map (fun p => (maskOf (p.2.getD a 0) *
            ((p.1.getD a vzero) d -
              (frames.map (fun q => maskOf (q.2.getD a 0) *
                (q.1.getD a vzero) d)).sum /
              ((frames.filter (fun p => decide (0 < p.2.getD a 0))).length : ℚ)))
            ^ 2)).sum
          = ((frames.filter (fun p => decide (0 < p.2.getD a 0))).map (fun p =>
              ((p.1.getD a vzero) d -
                ((frames.filter (fun p => decide (0 < p.2.getD a 0))).map
                  (fun q => (q.1.getD a vzero) d)).sum /
                ((frames.filter
                  (fun p => decide (0 < p.2.getD a 0))).length : ℚ)) ^ 2)).sum := by
      intro d
      rw [List.map_congr_left (fun p _ => maskOf_sq (p.2.getD a 0) _),
        maskSum a _ frames, hmean d]
    simp only [sum3]
    rw [hcomp 0, hcomp 1, hcomp 2]

theorem sum_map_constQ {α : Type} (l : List α) (c : ℚ) :
    (l.map (fun _ => c)).sum = (l.length : ℚ) * c := by
  induction l with
  | nil => simp
  | cons x xs ih => simp [ih]; ring

/-- C1: `getMSFs` returns `None` when no frames are present; with frames
present it returns, per selected atom, exactly the specification's masked
variance (`specMSFAt`): the weight enters only as the inclusion mask
`weight > 0`, and the normalizer is the number of included frames.  The
specification value is `none` (NaN) for an atom of weight 0 in every frame,
and exactly 0 for an atom included in every frame with identical
coordinates across frames. -/
theorem getMSFs_weighted_variance (e : PDBEnsemble) (cs : List Frame)
    (ws : List WRow) (hc : e.confs = some cs) (hw : e.weights = some ws) :
    getMSFs { e with confs := none } = none ∧
    (∃ out, getMSFs e = some out ∧
      out.length = (selF e.indices (e.coords.getD [])).length ∧
      ∀ a, a < out.length → out.getD a none =
        specMSFAt ((cs.zip ws).map
          (fun p => (selF e.indices p.1, selR e.indices p.2))) a) ∧
    (∀ frames a, (∀ p ∈ frames, p.2.getD a 0 = 0) →
      specMSFAt frames a = none) ∧
    (∀ frames a c, frames ≠ [] → (∀ p ∈ frames, 0 < p.2.getD a 0) →
      (∀ p ∈ frames, p.1.getD a vzero = c) →
      specMSFAt frames a = some 0) := by
  refine ⟨rfl, ?_, ?_, ?_⟩
  · refine ⟨(List.range (selF e.indices (e.coords.getD [])).length).map
        (fun a => msfAt ((cs.zip ws).map
          (fun p => (selF e.indices p.1, selR e.indices p.2))) a),
        by simp [getMSFs, hc, hw], by simp, ?_⟩
    intro a ha
    rw [getD_of_lt _ _ _ (by simpa using ha), List.getElem_map,
      List.getElem_range, msfAt_eq_spec]
  · intro frames a h
    have hfl : frames.filter (fun p => decide (0 < p.2.getD a 0)) = [] := by
      induction frames with
      | nil => rfl
      | cons p l ih =>
        rw [List.filter_cons, if_neg, ih (fun q hq => h q (List.mem_cons_of_mem p hq))]
        have h0 : p.2.getD a 0 = 0 := h p (List.mem_cons_self p l)
        rw [List.getD_eq_getElem?_getD] at h0
        simp [h0]
    simp only [specMSFAt]
    rw [hfl]
    simp
  · intro frames a c hne hpos hcoord
    have hfl : frames.filter (fun p => decide (0 < p.2.getD a 0)) = frames :=
      List.filter_eq_self.mpr (fun p hp => decide_eq_true (hpos p hp))
    have hk0 : frames.length ≠ 0 := fun h => hne (List.length_eq_zero.mp h)
    have hlenQ : (frames.length : ℚ) ≠ 0 := fun h => hk0 (Nat.cast_eq_zero.mp h)
    have hmean : ∀ d : Fin 3,
        (frames.map (fun q => (q.1.getD a vzero) d)).sum
          = (frames.length : ℚ) * c d := by
      intro d
      rw [List.map_congr_left (fun p hp => by rw [hcoord p hp]),
        sum_map_constQ]
    have hterm : ∀ d : Fin 3,
        (frames.map (fun p => ((p.1.getD a vzero) d -
          (frames.map (fun q => (q.1.getD a vzero) d)).sum /
            (frames.length : ℚ)) ^ 2)).sum = 0 := by
      intro d
      rw [List.map_congr_left (fun p hp => ?_), sum_map_constQ, mul_zero]
      rw [hcoord p hp, hmean d, mul_div_cancel_left₀ _ hlenQ, sub_self]
      norm_num
    simp only [specMSFAt, hfl]
    rw [if_neg hk0]
    simp only [sum3]
    rw [hterm 0, hterm 1, hterm 2]
    norm_num

/-- A two-atom, two-frame ensemble: atom 0 unresolved (weight 0) in every
frame, atom 1 resolved everywhere with identical coordinates. -/
def c1ens : PDBEnsemble :=
  { nAtoms := 2, nCsets := 2,
    coords := some [vzero, fun _ => 1],
    confs := some [[fun _ => 3, fun _ => 7], [fun _ => 4, fun _ => 7]],
    weights := some [[0, 1], [0, 2]],
    labels := ["a", "b"], indices := none, trans := none, msa := none }

theorem getMSFs_weighted_variance_witness :
    getMSFs { c1ens with confs := none } = none ∧
    (∃ out, getMSFs c1ens = some out ∧
      out.length = (selF c1ens.indices (c1ens.coords.getD [])).length ∧
      ∀ a, a < out.length → out.getD a none =
        specMSFAt ((([[fun _ => 3, fun _ => 7], [fun _ => 4, fun _ => 7]] :
            List Frame).zip ([[0, 1], [0, 2]] : List WRow)).map
          (fun p => (selF c1ens.indices p.1, selR c1ens.indices p.2))) a) ∧
    (∀ frames a, (∀ p ∈ frames, p.2.getD a 0 = 0) →
      specMSFAt frames a = none) ∧
    (∀ frames a c, frames ≠ [] → (∀ p ∈ frames, 0 < p.2.getD a 0) →
      (∀ p ∈ frames, p.1.getD a vzero = c) →
      specMSFAt frames a = some 0) :=
  getMSFs_weighted_variance c1ens
    [[fun _ => 3, fun _ => 7], [fun _ => 4, fun _ => 7]]
    [[0, 1], [0, 2]] rfl rfl

/-- The transformed point `tvec + np.dot(p, rmat.T)` for one atom
(src line 151): component `r` is `t r + Σ_c p c * R r c`. -/
def applyRT (R : Mat3) (t : Fin 3 → ℚ) (p : Vec3) : Vec3 :=
  fun r => t r + (p 0 * R r 0 + p 1 * R r 1 + p 2 * R r 2)

/-- Type of the `getTransformation` collaborator (`prody.measure`, an
external black box): mobile coordinates, target coordinates and weights to
a rotation matrix and a translation vector.  The theorems below hold for
every such function. -/
abbrev CalcT := Frame → Frame → WRow → Mat3 × (Fin 3 → ℚ)

/-- The 4×4 record written into `self._trans[i]` (src lines 148-150):
zeros, with the rotation in the upper-left 3×3 block and the translation
in the first three entries of the last column. -/
def mk4 (R : Mat3) (t : Fin 3 → ℚ) : Mat4 :=
  Matrix.of fun r c =>
    if hr : (r : Nat) < 3 then
      if hc : (c : Nat) < 3 then R ⟨r, hr⟩ ⟨c, hc⟩
      else if (c : Nat) = 3 then t ⟨r, hr⟩ else 0
    else 0

/-- `PDBEnsemble._superpose(**kwargs)` (src lines 124-152), parameterized by
the external `getTransformation` collaborator: each frame's transformation
is computed from its selected coordinates, the selected reference
coordinates and its selected weights, applied to the frame's full
coordinate array, and recorded when `trans` was requested; otherwise
`_trans` is set to `None`, discarding any previous history. -/
def superposeStep (calcT : CalcT) (tr : Bool) (st : PDBEnsemble) :
    PDBEnsemble :=
  let refSel := selF st.indices (st.coords.getD [])
  let cs := st.confs.getD []
  let ws := st.weights.getD []
  let rts := (cs.zip ws).map
    (fun p => calcT (selF st.indices p.1) refSel (selR st.indices p.2))
  { st with
    confs := some ((cs.zip rts).map (fun p => p.1.map (applyRT p.2.1 p.2.2))),
    trans := if tr then some (rts.map (fun rt => mk4 rt.1 rt.2)) else none }

theorem mk4_rot (R : Mat3) (t : Fin 3 → ℚ) (r c : Fin 3) :
    mk4 R t (r.castLE (by norm_num)) (c.castLE (by norm_num)) = R r c := by
  simp [mk4, r.isLt, c.isLt]

theorem mk4_tvec (R : Mat3) (t : Fin 3 → ℚ) (r : Fin 3) :
    mk4 R t (r.castLE (by norm_num)) 3 = t r := by
  simp [mk4, r.isLt]
  rfl

/-- C10: after `_superpose`, the transform history is never partially
populated: with tracking requested it holds exactly one 4×4 matrix per
conformation, carrying the computed rotation in the upper-left 3×3 block
and the translation in the first three entries of the last column; without
tracking it is `None`, discarding any previously stored history. -/
theorem superpose_trans_invariant (calcT : CalcT) (tr : Bool)
    (st : PDBEnsemble) (cs : List Frame) (ws : List WRow)
    (hc : st.confs = some cs) (hw : st.weights = some ws)
    (hlen : ws.length = cs.length) :
    (tr = false → (superposeStep calcT tr st).trans = none) ∧
    (tr = true → ∃ ts, (superposeStep calcT tr st).trans = some ts ∧
      ts.length = cs.length ∧
      ∀ i, i < cs.length →
        (∀ (r c : Fin 3), (ts.getD i 0) (r.castLE (by norm_num))
            (c.castLE (by norm_num)) =
          (calcT (selF st.indices (cs.getD i []))
            (selF st.indices (st.coords.getD []))
            (selR st.indices (ws.getD i []))).1 r c) ∧
        (∀ r : Fin 3, (ts.getD i 0) (r.castLE (by norm_num)) 3 =
          (calcT (selF st.indices (cs.getD i []))
            (selF st.indices (st.coords.getD []))
            (selR st.indices (ws.getD i []))).2 r)) := by
  constructor
  · intro htr
    simp [superposeStep, htr]
  · intro htr
    refine ⟨((cs.zip ws).map
        (fun p => calcT (selF st.indices p.1)
          (selF st.indices (st.coords.getD [])) (selR st.indices p.2))).map
        (fun rt => mk4 rt.1 rt.2), ?_, by simp [hlen], ?_⟩
    · simp [superposeStep, htr, hc, hw]
    · intro i hi
      rw [List.map_map, getD_map_zip _ cs ws i hi (by omega) [] [] _]
      exact ⟨fun r c => mk4_rot _ _ r c, fun r => mk4_tvec _ _ r⟩

/-- A concrete `getTransformation` stand-in used by witnesses: rotation with
entries `r + c` and translation `(5, 6, 7)`, ignoring its inputs. -/
def calcTDemo : CalcT :=
  fun _ _ _ => (Matrix.of fun r c => ((r : ℚ) + (c : ℚ)), fun r => (r : ℚ) + 5)

theorem superpose_trans_invariant_witness :
    (true = false → (superposeStep calcTDemo true c4base).trans = none) ∧
    (true = true → ∃ ts, (superposeStep calcTDemo true c4base).trans = some ts ∧
      ts.length = ([[vzero]] : List Frame).length ∧
      ∀ i, i < ([[vzero]] : List Frame).length →
        (∀ (r c : Fin 3), (ts.getD i 0) (r.castLE (by norm_num))
            (c.castLE (by norm_num)) =
          (calcTDemo (selF c4base.indices (([[vzero]] : List Frame).getD i []))
            (selF c4base.indices (c4base.coords.getD []))
            (selR c4base.indices (([[1]] : List WRow).getD i []))).1 r c) ∧
        (∀ r : Fin 3, (ts.getD i 0) (r.castLE (by norm_num)) 3 =
          (calcTDemo (selF c4base.indices (([[vzero]] : List Frame).getD i []))
            (selF c4base.indices (c4base.coords.getD []))
            (selR c4base.indices (([[1]] : List WRow).getD i []))).2 r)) :=
  superpose_trans_invariant calcTDemo true c4base [[vzero]] [[1]] rfl rfl rfl

/-- Modelled from the spec: `Ensemble.superpose()` (base class, not under
src) runs the per-frame superposition with transform tracking enabled
(§4.2: the final full superposition is performed "with transform
tracking"). -/
def superposeBase (calcT : CalcT) (st : PDBEnsemble) : PDBEnsemble :=
  superposeStep calcT true st

/-- Modelled from the spec: the provisional reference of the
converge-and-align loop, the statistics-weighted mean structure over all
frames (the mean step of §4.3, with the weight inclusion mask). -/
def meanRef (st : PDBEnsemble) : Frame :=
  let frames := (st.confs.getD []).zip (st.weights.getD [])
  (List.range st.nAtoms).map (fun a => fun d =>
    (frames.map (fun p => maskOf (p.2.getD a 0) * (p.1.getD a vzero) d)).sum /
      (frames.map (fun p => maskOf (p.2.getD a 0))).sum)

/-- Modelled from the spec: the squared RMS-style change between successive
provisional references, compared against the tolerance. -/
def refChangeSq (f g : Frame) : ℚ :=
  ((f.zip g).map (fun p => sum3 (fun d => (p.1 d - p.2 d) ^ 2))).sum

/-- Modelled from the spec: `Ensemble.iterpose(rmsd)` (base class, not under
src): repeatedly take the weighted mean structure as the new provisional
reference and superpose all frames onto it (without transform tracking),
stopping when the change of the reference falls below the tolerance or the
safety iteration ceiling `fuel` is exhausted. -/
def iterposeBase (calcT : CalcT) (tol : ℚ) : Nat → PDBEnsemble → PDBEnsemble
  | 0, st => st
  | fuel + 1, st =>
    let ref' := meanRef st
    let st' := superposeStep calcT false { st with coords := some ref' }
    if refChangeSq (st.coords.getD []) ref' ≤ tol * tol then st'
    else iterposeBase calcT tol fuel st'

/-- `PDBEnsemble.iterpose(rmsd)` (src lines 154-161): copy `_confs`, run the
base-class convergence loop (which mutates `_confs` and `_coords`), restore
the saved pre-loop `_confs`, and run one final full superposition with
transform tracking against the converged reference. -/
def iterpose (calcT : CalcT) (tol : ℚ) (fuel : Nat) (st : PDBEnsemble) :
    PDBEnsemble :=
  let saved := st.confs
  let st1 := iterposeBase calcT tol fuel st
  superposeBase calcT { st1 with confs := saved }

/-- The convergence loop never touches weights, selection, atom count or
labels. -/
theorem iterposeBase_preserves (calcT : CalcT) (tol : ℚ) (fuel : Nat)
    (st : PDBEnsemble) :
    (iterposeBase calcT tol fuel st).weights = st.weights ∧
    (iterposeBase calcT tol fuel st).indices = st.indices := by
  induction fuel generalizing st with
  | zero => exact ⟨rfl, rfl⟩
  | succ n ih =>
    simp only [iterposeBase]
    split
    · exact ⟨rfl, rfl⟩
    · exact ih _

theorem zip_map_self {α β γ δ : Type} (cs : List α) (ws : List β)
    (f : α × β → γ) (g : α → γ → δ) :
    (cs.zip ((cs.zip ws).map f)).map (fun p => g p.1 p.2)
      = (cs.zip ws).map (fun p => g p.1 (f p)) := by
  induction cs generalizing ws with
  | nil => rfl
  | cons a cs ih =>
    cases ws with
    | nil => rfl
    | cons b ws => simp [ih]

/-- C7: after `iterpose`, the exposed conformation coordinates are the
pre-loop conformations transformed by one final superposition against the
loop's converged reference — not the conformations mutated inside the loop
— and the transform history records exactly the transformations of that
final superposition. -/
theorem iterpose_final_superposition (calcT : CalcT) (tol : ℚ) (fuel : Nat)
    (st : PDBEnsemble) (cs : List Frame) (ws : List WRow)
    (hc : st.confs = some cs) (hw : st.weights = some ws) :
    (iterpose calcT tol fuel st).confs = some ((cs.zip ws).map (fun p =>
      p.1.map (applyRT
        (calcT (selF st.indices p.1)
          (selF st.indices ((iterposeBase calcT tol fuel st).coords.getD []))
          (selR st.indices p.2)).1
        (calcT (selF st.indices p.1)
          (selF st.indices ((iterposeBase calcT tol fuel st).coords.getD []))
          (selR st.indices p.2)).2))) ∧
    (iterpose calcT tol fuel st).trans = some ((cs.zip ws).map (fun p =>
      mk4
        (calcT (selF st.indices p.1)
          (selF st.indices ((iterposeBase calcT tol fuel st).coords.getD []))
          (selR st.indices p.2)).1
        (calcT (selF st.indices p.1)
          (selF st.indices ((iterposeBase calcT tol fuel st).coords.getD []))
          (selR st.indices p.2)).2)) := by
  obtain ⟨hpw, hpi⟩ := iterposeBase_preserves calcT tol fuel st
  simp only [iterpose, superposeBase, superposeStep, hc, hpw, hw, hpi,
    Option.getD_some, if_pos]
  constructor
  · rw [zip_map_self cs ws
      (fun p => calcT (selF st.indices p.1)
        (selF st.indices ((iterposeBase calcT tol fuel st).coords.getD []))
        (selR st.indices p.2))
      (fun c rt => c.map (applyRT rt.1 rt.2))]
  · rw [List.map_map]
    rfl

theorem iterpose_final_superposition_witness :
    (iterpose calcTDemo 1 3 c1ens).confs = some
      ((([[fun _ => 3, fun _ => 7], [fun _ => 4, fun _ => 7]] : List Frame).zip
        ([[0, 1], [0, 2]] : List WRow)).map (fun p =>
      p.1.map (applyRT
        (calcTDemo (selF c1ens.indices p.1)
          (selF c1ens.indices ((iterposeBase calcTDemo 1 3 c1ens).coords.getD []))
          (selR c1ens.indices p.2)).1
        (calcTDemo (selF c1ens.indices p.1)
          (selF c1ens.indices ((iterposeBase calcTDemo 1 3 c1ens).coords.getD []))
          (selR c1ens.indices p.2)).2))) ∧
    (iterpose calcTDemo 1 3 c1ens).trans = some
      ((([[fun _ => 3, fun _ => 7], [fun _ => 4, fun _ => 7]] : List Frame).zip
        ([[0, 1], [0, 2]] : List WRow)).map (fun p =>
      mk4
        (calcTDemo (selF c1ens.indices p.1)
          (selF c1ens.indices ((iterposeBase calcTDemo 1 3 c1ens).coords.getD []))
          (selR c1ens.indices p.2)).1
        (calcTDemo (selF c1ens.indices p.1)
          (selF c1ens.indices ((iterposeBase calcTDemo 1 3 c1ens).coords.getD []))
          (selR c1ens.indices p.2)).2)) :=
  iterpose_final_superposition calcTDemo 1 3 c1ens
    [[fun _ => 3, fun _ => 7], [fun _ => 4, fun _ => 7]]
    [[0, 1], [0, 2]] rfl rfl

/-- Squared Euclidean distance between two 3-vectors. -/
def sqDist (p q : Vec3) : ℚ := sum3 (fun d => (p d - q d) ^ 2)

/-- Modelled from the spec: the weighted mean-square deviation underlying
`getRMSD` (`prody.measure`, an external black box): the weighted sum of
squared distances divided by the weight total. -/
def msdQ (p q : Frame) (w : WRow) : ℚ :=
  (((p.zip q).zip w).map (fun t => t.2 * sqDist t.1.1 t.1.2)).sum / w.sum

/-- Modelled from the spec: `getRMSD(ref, tar, weights)` returns the square
root of the weighted mean-square deviation. -/
noncomputable def getRMSD (p q : Frame) (w : WRow) : ℝ :=
  Real.sqrt ((msdQ p q w : ℚ) : ℝ)

/-- Elementwise product of two weight rows (`wi * wj`, src lines 479-480). -/
def wprod (a b : WRow) : WRow := (a.zip b).map (fun p => p.1 * p.2)

/-- `PDBEnsemble.getRMSDs(pairwise=True)` (src lines 463-481): the matrix
whose strict upper triangle is filled with
`getRMSD(confs[i][indices], confs[j][indices], w_i * w_j)` for `i < j`,
mirrored onto the lower triangle (`RMSDs[i,j] = RMSDs[j,i]`), the diagonal
keeping its initial 0; entry `(i, j)` therefore evaluates the pair at
`(min i j, max i j)`. -/
noncomputable def pairRMSD (e : PDBEnsemble) (i j : Nat) : ℝ :=
  if i = j then 0
  else
    getRMSD (selF e.indices ((e.confs.getD []).getD (min i j) []))
      (selF e.indices ((e.confs.getD []).getD (max i j) []))
      (wprod (selR e.indices ((e.weights.getD []).getD (min i j) []))
        (selR e.indices ((e.weights.getD []).getD (max i j) [])))

theorem sqDist_comm (p q : Vec3) : sqDist p q = sqDist q p := by
  unfold sqDist sum3; ring

theorem wprod_comm (a b : WRow) : wprod a b = wprod b a := by
  unfold wprod
  induction a generalizing b with
  | nil => cases b <;> rfl
  | cons x xs ih =>
    cases b with
    | nil => rfl
    | cons y ys => simp [ih, mul_comm]

theorem msdQ_comm (p q : Frame) (w : WRow) : msdQ p q w = msdQ q p w := by
  unfold msdQ
  congr 1
  induction p generalizing q w with
  | nil => cases q <;> cases w <;> rfl
  | cons x xs ih =>
    cases q with
    | nil => rfl
    | cons y ys =>
      cases w with
      | nil => rfl
      | cons c cs => simp [ih, sqDist_comm x y]

theorem getRMSD_comm (p q : Frame) (w : WRow) :
    getRMSD p q w = getRMSD q p w := by
  unfold getRMSD
  rw [msdQ_comm]

/-- An atom whose weight is zero contributes nothing: replacing its
coordinates does not change the weighted mean-square deviation. -/
theorem msdQ_set_zero (p q : Frame) (w : WRow) (a : Nat) (v : Vec3)
    (h : w.getD a 0 = 0) : msdQ (p.set a v) q w = msdQ p q w := by
  unfold msdQ
  congr 1
  induction a generalizing p q w with
  | zero =>
    cases p with
    | nil => rfl
    | cons x xs =>
      cases q with
      | nil => rfl
      | cons y ys =>
        cases w with
        | nil => rfl
        | cons c cs =>
          have hc : c = 0 := h
          simp [hc]
  | succ a ih =>
    cases p with
    | nil => rfl
    | cons x xs =>
      cases q with
      | nil => rfl
      | cons y ys =>
        cases w with
        | nil => rfl
        | cons c cs => simp [ih xs ys cs (by simpa using h)]

/-- C2: the pairwise RMSD matrix has zero diagonal, is symmetric, its entry
`(i, j)` is the RMSD of frames `i` and `j` over the selected atoms weighted
by the elementwise product of the two frames' weight rows, and an atom with
zero product weight contributes nothing to an entry (its coordinates can be
replaced without changing the RMSD). -/
theorem getRMSDs_pairwise_props (e : PDBEnsemble) (cs : List Frame)
    (ws : List WRow) (hc : e.confs = some cs) (hw : e.weights = some ws) :
    (∀ i, pairRMSD e i i = 0) ∧
    (∀ i j, pairRMSD e i j = pairRMSD e j i) ∧
    (∀ i j, i ≠ j → pairRMSD e i j =
      getRMSD (selF e.indices (cs.getD i [])) (selF e.indices (cs.getD j []))
        (wprod (selR e.indices (ws.getD i []))
          (selR e.indices (ws.getD j [])))) ∧
    (∀ p q w a v, w.getD a 0 = 0 →
      getRMSD (p.set a v) q w = getRMSD p q w) := by
  refine ⟨fun i => by simp [pairRMSD], ?_, ?_, ?_⟩
  · intro i j
    unfold pairRMSD
    by_cases hij : i = j
    · simp [hij]
    · rw [if_neg hij, if_neg (fun h => hij h.symm), min_comm, max_comm]
  · intro i j hij
    unfold pairRMSD
    rw [if_neg hij, hc, hw]
    simp only [Option.getD_some]
    rcases Nat.lt_or_ge i j with hlt | hge
    · rw [min_eq_left (le_of_lt hlt), max_eq_right (le_of_lt hlt)]
    · have hlt : j < i := Nat.lt_of_le_of_ne hge (fun h => hij h.symm)
      rw [min_eq_right (le_of_lt hlt), max_eq_left (le_of_lt hlt),
        getRMSD_comm, wprod_comm]
  · intro p q w a v h
    unfold getRMSD
    rw [msdQ_set_zero p q w a v h]

theorem getRMSDs_pairwise_props_witness :
    (∀ i, pairRMSD c1ens i i = 0) ∧
    (∀ i j, pairRMSD c1ens i j = pairRMSD c1ens j i) ∧
    (∀ i j, i ≠ j → pairRMSD c1ens i j =
      getRMSD
        (selF c1ens.indices
          (([[fun _ => 3, fun _ => 7], [fun _ => 4, fun _ => 7]] :
            List Frame).getD i []))
        (selF c1ens.indices
          (([[fun _ => 3, fun _ => 7], [fun _ => 4, fun _ => 7]] :
            List Frame).getD j []))
        (wprod (selR c1ens.indices (([[0, 1], [0, 2]] : List WRow).getD i []))
          (selR c1ens.indices
            (([[0, 1], [0, 2]] : List WRow).getD j [])))) ∧
    (∀ p q w a v, w.getD a 0 = 0 →
      getRMSD (p.set a v) q w = getRMSD p q w) :=
  getRMSDs_pairwise_props c1ens
    [[fun _ => 3, fun _ => 7], [fun _ => 4, fun _ => 7]]
    [[0, 1], [0, 2]] rfl rfl

/-!
Heap model for sub-ensemble extraction (`__getitem__`, src lines 84-122).
The claim under examination is about aliasing of numpy arrays, so the
extraction is modelled over an explicit store of array cells: `copy(...)`,
`.copy()` and fancy (integer-list) indexing allocate fresh cells, while
basic slice indexing (`self._trans[index]` with a slice, src line 103)
yields a view onto the parent's cell; writing through a view mutates the
shared cell.  The slice selector is represented by its resolved list of
frame indices.  `addCoordset` on the fresh child stores the passed arrays
directly (src lines 321-323), so the child's cells are exactly the copies
made at the call site.
-/

/-- The heap: a list of flat rational array cells. -/
structure Store where
  cells : List (List ℚ)
deriving DecidableEq

/-- A handle to array data: a cell id plus an optional view, listing the
positions of the base cell that the handle sees, in order. -/
structure Handle where
  base : Nat
  view : Option (List Nat)
deriving DecidableEq

/-- Read the array a handle denotes. -/
def readH (s : Store) (h : Handle) : List ℚ :=
  let c := s.cells.getD h.base []
  match h.view with
  | none => c
  | some is => is.map (fun i => c.getD i 0)

/-- In-place assignment through a handle (`arr[...] = v`). -/
def writeH (s : Store) (h : Handle) (v : List ℚ) : Store :=
  let c := s.cells.getD h.base []
  let c' := match h.view with
    | none => v
    | some is => (is.zip v).foldl (fun acc p => acc.set p.1 p.2) c
  { cells := s.cells.set h.base c' }

/-- The array-bearing state of a `PDBEnsemble`: numpy arrays replaced by
handles.  `coordsH` holds the reference coordinates (3 rationals per atom,
flattened), `confsH` the conformations (`frameLen` rationals per frame),
`weightsH` the weights (`wLen` per frame) and `transH` the optional 4×4
transform history (16 per frame).  `msa` is the optional per-frame sequence
collection, kept as plain values: Python strings are immutable and the
child's MSA is rebuilt from row strings inside `addCoordset` (src lines
279-280 and 306-316), so sequence rows never share mutable storage. -/
structure EnsH where
  coordsH : Handle
  confsH : Handle
  weightsH : Handle
  transH : Option Handle
  msa : Option (List String)
  labels : List String
  indices : Option (List Nat)
  nFrames : Nat
  frameLen : Nat
  wLen : Nat
deriving DecidableEq

/-- The sequence rows forwarded into an extracted child: `msa = self._msa`
and, when present, `msa = self._msa[index]` (src lines 87-89); the child's
`addCoordset` receives it as `sequence=msa` (src lines 101 and 115) and
rebuilds a fresh MSA from the selected rows' strings (src lines 279-280 and
306-316). -/
def msaRows (m : Option (List String)) (sel : List Nat) :
    Option (List String) :=
  m.map (fun rows => sel.map (fun f => rows.getD f ""))

/-- The flattened content of the frame rows `sel` of a per-frame cell with
rows of length `len` (`arr[sel].copy()`). -/
def readRows (s : Store) (h : Handle) (sel : List Nat) (len : Nat) :
    List ℚ :=
  sel.flatMap (fun f => (List.range len).map
    (fun k => (readH s h).getD (f * len + k) 0))

/-- `__getitem__` with a slice selector (src lines 93-106), `sel` being the
resolved frame indices of the slice: reference coordinates, selected
conformation rows and weight rows are copied into three fresh cells
(`copy(self._coords)`, `self._confs[index].copy()`,
`self._weights[index].copy()`), labels are list-sliced (fresh list), the
selection indices are carried over, and the sequence rows (if present) are
sliced and rebuilt into a fresh child MSA (`msaRows`) — but
`ens._trans = self._trans[index]` is numpy basic indexing, so the child's
transform history is a view of the parent's cell. -/
def getitemSlice (s : Store) (p : EnsH) (sel : List Nat) : Store × EnsH :=
  let transChild : Option Handle :=
    match p.transH with
    | none => none
    | some h =>
      let poss := sel.flatMap (fun f => (List.range 16).map (fun k => f * 16 + k))
      some { base := h.base,
             view := match h.view with
               | none => some poss
               | some is => some (poss.map (fun i => is.getD i 0)) }
  ({ cells := s.cells ++ [readH s p.coordsH,
      readRows s p.confsH sel p.frameLen,
      readRows s p.weightsH sel p.wLen] },
   { coordsH := { base := s.cells.length, view := none },
     confsH := { base := s.cells.length + 1, view := none },
     weightsH := { base := s.cells.length + 2, view := none },
     transH := transChild,
     msa := msaRows p.msa sel,
     labels := sel.map (fun f => p.labels.getD f ""),
     indices := p.indices,
     nFrames := sel.length, frameLen := p.frameLen, wLen := p.wLen })

/-- `__getitem__` with an index-list selector (src lines 108-120): as with
a slice, including the sliced-and-rebuilt sequence rows, except
`self._trans[index]` is numpy fancy indexing, which copies — the child's
transform history gets a fresh cell too. -/
def getitemList (s : Store) (p : EnsH) (sel : List Nat) : Store × EnsH :=
  match p.transH with
  | none =>
    ({ cells := s.cells ++ [readH s p.coordsH,
        readRows s p.confsH sel p.frameLen,
        readRows s p.weightsH sel p.wLen] },
     { coordsH := { base := s.cells.length, view := none },
       confsH := { base := s.cells.length + 1, view := none },
       weightsH := { base := s.cells.length + 2, view := none },
       transH := none,
       msa := msaRows p.msa sel,
       labels := sel.map (fun f => p.labels.getD f ""),
       indices := p.indices,
       nFrames := sel.length, frameLen := p.frameLen, wLen := p.wLen })
  | some h =>
    ({ cells := s.cells ++ [readH s p.coordsH,
        readRows s p.confsH sel p.frameLen,
        readRows s p.weightsH sel p.wLen,
        readRows s h sel 16] },
     { coordsH := { base := s.cells.length, view := none },
       confsH := { base := s.cells.length + 1, view := none },
       weightsH := { base := s.cells.length + 2, view := none },
       transH := some { base := s.cells.length + 3, view := none },
       msa := msaRows p.msa sel,
       labels := sel.map (fun f => p.labels.getD f ""),
       indices := p.indices,
       nFrames := sel.length, frameLen := p.frameLen, wLen := p.wLen })

theorem getD_append_lt {α : Type} (l l' : List α) (i : Nat) (d : α)
    (h : i < l.length) : (l ++ l').getD i d = l.getD i d := by
  rw [List.getD_eq_getElem?_getD, List.getElem?_append, if_pos h,
    ← List.getD_eq_getElem?_getD]

theorem getD_append_at {α : Type} (l l' : List α) (k : Nat) (d : α) :
    (l ++ l').getD (l.length + k) d = l'.getD k d := by
  rw [List.getD_eq_getElem?_getD, List.getElem?_append, if_neg (by omega)]
  rw [← List.getD_eq_getElem?_getD]
  congr 1
  omega

/-- Reads through a handle with a different base cell are unaffected by a
write. -/
theorem readH_writeH_ne (s : Store) (h h' : Handle) (v : List ℚ)
    (hne : h'.base ≠ h.base) : readH (writeH s h v) h' = readH s h' := by
  unfold readH writeH
  have hcell : ∀ c', (s.cells.set h.base c').getD h'.base [] =
      s.cells.getD h'.base [] := by
    intro c'
    rw [List.getD_eq_getElem?_getD, List.getElem?_set_ne (fun he => hne he.symm),
      ← List.getD_eq_getElem?_getD]
  rw [hcell]

/-- Reads are unaffected by appending fresh cells. -/
theorem readH_append (s : Store) (h : Handle) (l : List (List ℚ))
    (hb : h.base < s.cells.length) :
    readH { cells := s.cells ++ l } h = readH s h := by
  unfold readH
  rw [getD_append_lt _ _ _ _ hb]

theorem getD_append3_0 {α : Type} (l : List α) (a b c d : α) :
    (l ++ [a, b, c]).getD l.length d = a := by
  simpa using getD_append_at l [a, b, c] 0 d

theorem getD_append3_1 {α : Type} (l : List α) (a b c d : α) :
    (l ++ [a, b, c]).getD (l.length + 1) d = b := by
  simpa using getD_append_at l [a, b, c] 1 d

theorem getD_append3_2 {α : Type} (l : List α) (a b c d : α) :
    (l ++ [a, b, c]).getD (l.length + 2) d = c := by
  simpa using getD_append_at l [a, b, c] 2 d

/-- A parent store with one 3-component reference cell, a two-frame
conformation cell, a weight cell and a two-frame (32-entry) transform
cell. -/
def c8store : Store :=
  { cells := [[0, 0, 0], [1, 2, 3, 4, 5, 6], [1, 1],
      (List.range 32).map (fun i => (i : ℚ))] }

/-- The parent ensemble over `c8store`, with a populated transform
history and a two-row sequence collection. -/
def c8parent : EnsH :=
  { coordsH := ⟨0, none⟩, confsH := ⟨1, none⟩, weightsH := ⟨2, none⟩,
    transH := some ⟨3, none⟩, msa := some ["MA", "MB"],
    labels := ["a", "b"], indices := none,
    nFrames := 2, frameLen := 3, wLen := 1 }

/-- C8 (counterexample): extracting a sub-ensemble with a slice selector
aliases the transform history (`ens._trans = self._trans[index]`, numpy
basic indexing, src line 103): overwriting the child's transform history in
place changes what the parent's transform history reads back, so the
extraction does not deep-copy all backing arrays. -/
theorem getitem_slice_trans_aliased :
    readH (writeH (getitemSlice c8store c8parent [0]).1
        (((getitemSlice c8store c8parent [0]).2.transH).getD ⟨0, none⟩)
        (List.replicate 16 99))
      ((c8parent.transH).getD ⟨0, none⟩) ≠
    readH (getitemSlice c8store c8parent [0]).1
      ((c8parent.transH).getD ⟨0, none⟩) := by
  decide

/-- C8 (amended): slice and list extraction copy the reference coordinates,
the selected frames' coordinate and weight rows, the labels and the
sequence rows if present (rebuilt into a fresh child MSA), carry over the
parent's selection indices, and do not alias those arrays — mutating the
child's coordinates or weights leaves every parent array (transform history
included) unchanged, and mutating the parent's coordinates, conformations
or weights leaves the child's copies unchanged; for an index-list selector
the transform history is copied as well.  (Only the slice selector's
transform history is a view, as the counterexample shows.) -/
theorem getitem_deep_copy_except_slice_trans (s : Store) (p : EnsH)
    (sel : List Nat)
    (hco : p.coordsH.base < s.cells.length)
    (hcf : p.confsH.base < s.cells.length)
    (hwt : p.weightsH.base < s.cells.length)
    (htr : ∀ h, p.transH = some h → h.base < s.cells.length) :
    (∀ h : Handle, h.base < s.cells.length →
      readH (getitemSlice s p sel).1 h = readH s h) ∧
    readH (getitemSlice s p sel).1 (getitemSlice s p sel).2.coordsH =
      readH s p.coordsH ∧
    readH (getitemSlice s p sel).1 (getitemSlice s p sel).2.confsH =
      readRows s p.confsH sel p.frameLen ∧
    readH (getitemSlice s p sel).1 (getitemSlice s p sel).2.weightsH =
      readRows s p.weightsH sel p.wLen ∧
    (getitemSlice s p sel).2.labels = sel.map (fun f => p.labels.getD f "") ∧
    (getitemSlice s p sel).2.indices = p.indices ∧
    (getitemSlice s p sel).2.msa = msaRows p.msa sel ∧
    (∀ v, readH (writeH (getitemSlice s p sel).1
        (getitemSlice s p sel).2.confsH v) p.confsH =
      readH (getitemSlice s p sel).1 p.confsH) ∧
    (∀ v, readH (writeH (getitemSlice s p sel).1
        (getitemSlice s p sel).2.weightsH v) p.weightsH =
      readH (getitemSlice s p sel).1 p.weightsH) ∧
    (∀ v, readH (writeH (getitemSlice s p sel).1
        (getitemSlice s p sel).2.coordsH v) p.coordsH =
      readH (getitemSlice s p sel).1 p.coordsH) ∧
    (∀ v h', p.transH = some h' →
      readH (writeH (getitemSlice s p sel).1
        (getitemSlice s p sel).2.confsH v) h' =
      readH (getitemSlice s p sel).1 h') ∧
    (∀ v, readH (writeH (getitemSlice s p sel).1 p.confsH v)
        (getitemSlice s p sel).2.confsH =
      readH (getitemSlice s p sel).1 (getitemSlice s p sel).2.confsH) ∧
    (∀ v, readH (writeH (getitemSlice s p sel).1 p.weightsH v)
        (getitemSlice s p sel).2.weightsH =
      readH (getitemSlice s p sel).1 (getitemSlice s p sel).2.weightsH) ∧
    (∀ v, readH (writeH (getitemSlice s p sel).1 p.coordsH v)
        (getitemSlice s p sel).2.coordsH =
      readH (getitemSlice s p sel).1 (getitemSlice s p sel).2.coordsH) ∧
    (∀ v h hp, (getitemList s p sel).2.transH = some h →
      p.transH = some hp →
      readH (writeH (getitemList s p sel).1 h v) hp =
      readH (getitemList s p sel).1 hp) := by
  have readH_fresh0 : ∀ (s' : Store) (a b c : List ℚ),
      readH { cells := s'.cells ++ [a, b, c] }
        { base := s'.cells.length, view := none } = a := by
    intro s' a b c
    unfold readH
    exact getD_append3_0 _ _ _ _ _
  have readH_fresh1 : ∀ (s' : Store) (a b c : List ℚ),
      readH { cells := s'.cells ++ [a, b, c] }
        { base := s'.cells.length + 1, view := none } = b := by
    intro s' a b c
    unfold readH
    exact getD_append3_1 _ _ _ _ _
  have readH_fresh2 : ∀ (s' : Store) (a b c : List ℚ),
      readH { cells := s'.cells ++ [a, b, c] }
        { base := s'.cells.length + 2, view := none } = c := by
    intro s' a b c
    unfold readH
    exact getD_append3_2 _ _ _ _ _
  refine ⟨?_, ?_, ?_, ?_, rfl, rfl, rfl, ?_, ?_, ?_, ?_, ?_, ?_, ?_, ?_⟩
  · intro h hb
    exact readH_append s h _ hb
  · exact readH_fresh0 s _ _ _
  · exact readH_fresh1 s _ _ _
  · exact readH_fresh2 s _ _ _
  · intro v
    apply readH_writeH_ne
    simp only [getitemSlice]
    omega
  · intro v
    apply readH_writeH_ne
    simp only [getitemSlice]
    omega
  · intro v
    apply readH_writeH_ne
    simp only [getitemSlice]
    omega
  · intro v h' hp
    apply readH_writeH_ne
    have := htr h' hp
    simp only [getitemSlice]
    omega
  · intro v
    apply readH_writeH_ne
    simp only [getitemSlice]
    omega
  · intro v
    apply readH_writeH_ne
    simp only [getitemSlice]
    omega
  · intro v
    apply readH_writeH_ne
    simp only [getitemSlice]
    omega
  · intro v h hp hlist hptr
    rcases hmatch : p.transH with _ | hpH
    · rw [hmatch] at hptr
      exact absurd hptr (by simp)
    · simp only [getitemList, hmatch] at hlist ⊢
      have hh : h = { base := s.cells.length + 3, view := none } :=
        (Option.some.inj hlist).symm
      have hp1 : hp = hpH := by
        rw [hmatch] at hptr
        exact (Option.some.inj hptr).symm
      apply readH_writeH_ne
      rw [hh, hp1]
      show hpH.base ≠ s.cells.length + 3
      have := htr hpH hmatch
      omega

theorem getitem_deep_copy_except_slice_trans_witness :
    (∀ h : Handle, h.base < c8store.cells.length →
      readH (getitemSlice c8store c8parent [0]).1 h = readH c8store h) ∧
    readH (getitemSlice c8store c8parent [0]).1
        (getitemSlice c8store c8parent [0]).2.coordsH =
      readH c8store c8parent.coordsH ∧
    readH (getitemSlice c8store c8parent [0]).1
        (getitemSlice c8store c8parent [0]).2.confsH =
      readRows c8store c8parent.confsH [0] c8parent.frameLen ∧
    readH (getitemSlice c8store c8parent [0]).1
        (getitemSlice c8store c8parent [0]).2.weightsH =
      readRows c8store c8parent.weightsH [0] c8parent.wLen ∧
    (getitemSlice c8store c8parent [0]).2.labels =
      ([0] : List Nat).map (fun f => c8parent.labels.getD f "") ∧
    (getitemSlice c8store c8parent [0]).2.indices = c8parent.indices ∧
    (getitemSlice c8store c8parent [0]).2.msa = msaRows c8parent.msa [0] ∧
    (∀ v, readH (writeH (getitemSlice c8store c8parent [0]).1
        (getitemSlice c8store c8parent [0]).2.confsH v) c8parent.confsH =
      readH (getitemSlice c8store c8parent [0]).1 c8parent.confsH) ∧
    (∀ v, readH (writeH (getitemSlice c8store c8parent [0]).1
        (getitemSlice c8store c8parent [0]).2.weightsH v) c8parent.weightsH =
      readH (getitemSlice c8store c8parent [0]).1 c8parent.weightsH) ∧
    (∀ v, readH (writeH (getitemSlice c8store c8parent [0]).1
        (getitemSlice c8store c8parent [0]).2.coordsH v) c8parent.coordsH =
      readH (getitemSlice c8store c8parent [0]).1 c8parent.coordsH) ∧
    (∀ v h', c8parent.transH = some h' →
      readH (writeH (getitemSlice c8store c8parent [0]).1
        (getitemSlice c8store c8parent [0]).2.confsH v) h' =
      readH (getitemSlice c8store c8parent [0]).1 h') ∧
    (∀ v, readH (writeH (getitemSlice c8store c8parent [0]).1
        c8parent.confsH v) (getitemSlice c8store c8parent [0]).2.confsH =
      readH (getitemSlice c8store c8parent [0]).1
        (getitemSlice c8store c8parent [0]).2.confsH) ∧
    (∀ v, readH (writeH (getitemSlice c8store c8parent [0]).1
        c8parent.weightsH v) (getitemSlice c8store c8parent [0]).2.weightsH =
      readH (getitemSlice c8store c8parent [0]).1
        (getitemSlice c8store c8parent [0]).2.weightsH) ∧
    (∀ v, readH (writeH (getitemSlice c8store c8parent [0]).1
        c8parent.coordsH v) (getitemSlice c8store c8parent [0]).2.coordsH =
      readH (getitemSlice c8store c8parent [0]).1
        (getitemSlice c8store c8parent [0]).2.coordsH) ∧
    (∀ v h hp, (getitemList c8store c8parent [0]).2.transH = some h →
      c8parent.transH = some hp →
      readH (writeH (getitemList c8store c8parent [0]).1 h v) hp =
      readH (getitemList c8store c8parent [0]).1 hp) :=
  getitem_deep_copy_except_slice_trans c8store c8parent [0]
    (by decide) (by decide) (by decide)
    (fun h hp => by
      rw [(Option.some.inj hp).symm]
      decide)

end ProDyEnsemble
